import Mathlib

/-!
Verification development for the surveillance data plane
(services/surveillance). Rust sources are shallowly embedded as Lean
definitions; each definition names the Rust item it models. Machine
f64 values are modelled by the type F64 below: a rational number or
NaN. This captures the NaN propagation and comparison behaviour the
code relies on; IEEE rounding and infinities are not modelled (all
claims treated here depend only on exact values and NaN-ness).
-/

set_option maxHeartbeats 1000000

/-- Model of an f64 value: NaN or an exact rational. -/
inductive F64 where
  | nan : F64
  | num : ℚ → F64
deriving DecidableEq, Repr

instance : Inhabited F64 := ⟨F64.num 0⟩

/-- Model of f64::is_nan. -/
def F64.isNan : F64 → Bool
  | .nan => true
  | .num _ => false

/-- Model of f64 addition (NaN absorbing; rounding not modelled). -/
def F64.add : F64 → F64 → F64
  | .num a, .num b => .num (a + b)
  | _, _ => .nan

/-- Model of f64 subtraction (NaN absorbing; rounding not modelled). -/
def F64.sub : F64 → F64 → F64
  | .num a, .num b => .num (a - b)
  | _, _ => .nan

/-- Model of dividing an f64 by 2.0. -/
def F64.half : F64 → F64
  | .num a => .num (a / 2)
  | .nan => .nan

/-- Model of px_a.partial_cmp(px_b).unwrap_or(Ordering::Equal):
NaN on either side compares Equal (partial_cmp returns None). -/
def F64.pc : F64 → F64 → Ordering
  | .num x, .num y => if x < y then .lt else if y < x then .gt else .eq
  | _, _ => .eq

/-- The boolean order that a stable sort uses for a Rust sort_by
comparator: an element i may precede j unless the comparator says
Greater. -/
def leOfCmp (cmp : Nat → Nat → Ordering) (i j : Nat) : Bool :=
  match cmp i j with
  | .gt => false
  | _ => true

/-- Stable insertion of an index into an already sorted index list: i
is placed before the first j it may precede, hence before all ties
that were originally later. -/
def insertIdx (le : Nat → Nat → Bool) (i : Nat) : List Nat → List Nat
  | [] => [i]
  | j :: rest => if le i j then i :: j :: rest else j :: insertIdx le i rest

/-- Stable sort of an index list (insertion sort). -/
def isort (le : Nat → Nat → Bool) : List Nat → List Nat
  | [] => []
  | i :: rest => insertIdx le i (isort le rest)

/-- Model of building (0..n).collect::<Vec<usize>>() and stably sorting
it with sort_by(cmp). Rust sort_by is a stable sort; for the total
preorders arising from NaN-free price lists the stable result is
unique, so a stable insertion sort is a faithful model there, and on
lists of length at most one it is exact for every input. -/
def sortIndices (cmp : Nat → Nat → Ordering) (n : Nat) : List Nat :=
  isort (fun i j => leOfCmp cmp i j) (List.range n)

/-- Model of schema.rs lines 46-47: indices of bid_px sorted by price
descending (comparator |&a,&b| bid_px[b].partial_cmp(&bid_px[a])). -/
def bidIndices (px : List F64) : List Nat :=
  sortIndices (fun a b => F64.pc (px.getD b F64.nan) (px.getD a F64.nan)) px.length

/-- Model of schema.rs lines 52-53: indices of ask_px sorted by price
ascending (comparator |&a,&b| ask_px[a].partial_cmp(&ask_px[b])). -/
def askIndices (px : List F64) : List Nat :=
  sortIndices (fun a b => F64.pc (px.getD a F64.nan) (px.getD b F64.nan)) px.length

/-- Model of indices.iter().map(|&i| sz[i]).collect(): the vector
indexing sz[i] panics when i is out of bounds, modelled as none. -/
def optIndex (sz : List F64) : List Nat → Option (List F64)
  | [] => some []
  | i :: rest =>
    match sz.get? i, optIndex sz rest with
    | some v, some vs => some (v :: vs)
    | _, _ => none

/-- Model of schema.rs SnapshotRow. -/
structure SnapshotRow where
  ts_recv : Int
  venue : String
  market_id : String
  outcome_id : String
  seq : Int
  best_bid_px : F64
  best_bid_sz : F64
  best_ask_px : F64
  best_ask_sz : F64
  mid : F64
  spread : F64
  bid_px : List F64
  bid_sz : List F64
  ask_px : List F64
  ask_sz : List F64
  status : String
  err : String
  source_ts : Option Int
deriving DecidableEq, Repr

/-- The mid, spread and status tuple of schema.rs lines 72-81 as a
function of the best bid and ask prices. -/
def mssOf (best_bid_px best_ask_px : F64) : F64 × F64 × String :=
  if !best_bid_px.isNan && !best_ask_px.isNan then
    (F64.half (F64.add best_bid_px best_ask_px), F64.sub best_ask_px best_bid_px, "ok")
  else if !best_bid_px.isNan || !best_ask_px.isNan then
    (F64.nan, F64.nan, "partial")
  else
    (F64.nan, F64.nan, "empty")

/-- Second half of SnapshotRow::new (schema.rs lines 57-103), applied
to the already sorted price and size lists: cap to matching lengths,
compute best bid and ask, mid, spread and status, and assemble the
row. -/
def SnapshotRow.fromSorted (ts_recv : Int) (venue market_id outcome_id : String) (seq : Int)
    (sorted_bid_px sorted_bid_sz sorted_ask_px sorted_ask_sz : List F64)
    (source_ts : Option Int) : SnapshotRow :=
  -- Cap to matching lengths (schema.rs lines 57-64)
  let min_bid_len := min sorted_bid_px.length sorted_bid_sz.length
  let min_ask_len := min sorted_ask_px.length sorted_ask_sz.length
  let bid_px2 := sorted_bid_px.take min_bid_len
  let bid_sz2 := sorted_bid_sz.take min_bid_len
  let ask_px2 := sorted_ask_px.take min_ask_len
  let ask_sz2 := sorted_ask_sz.take min_ask_len
  -- Compute best bid/ask (schema.rs lines 66-70)
  let best_bid_px := bid_px2.headD F64.nan
  let best_bid_sz := if bid_px2.isEmpty then F64.num 0 else bid_sz2.getD 0 (F64.num 0)
  let best_ask_px := ask_px2.headD F64.nan
  let best_ask_sz := if ask_px2.isEmpty then F64.num 0 else ask_sz2.getD 0 (F64.num 0)
  -- Compute mid and spread (schema.rs lines 72-81)
  let res : F64 × F64 × String := mssOf best_bid_px best_ask_px
  { ts_recv := ts_recv, venue := venue, market_id := market_id,
    outcome_id := outcome_id, seq := seq,
    best_bid_px := best_bid_px, best_bid_sz := best_bid_sz,
    best_ask_px := best_ask_px, best_ask_sz := best_ask_sz,
    mid := res.1, spread := res.2.1,
    bid_px := bid_px2, bid_sz := bid_sz2, ask_px := ask_px2, ask_sz := ask_sz2,
    status := res.2.2, err := "", source_ts := source_ts }

/-- Model of SnapshotRow::new (schema.rs lines 27-103). Returns none
exactly when the Rust constructor panics (out-of-bounds indexing of a
size list while building sorted_bid_sz or sorted_ask_sz, schema.rs
lines 49 and 55). -/
def SnapshotRow.new? (ts_recv : Int) (venue market_id outcome_id : String) (seq : Int)
    (bid_px bid_sz ask_px ask_sz : List F64) (source_ts : Option Int) : Option SnapshotRow :=
  let bIdx := bidIndices bid_px
  let aIdx := askIndices ask_px
  match optIndex bid_sz bIdx, optIndex ask_sz aIdx with
  | some sorted_bid_sz, some sorted_ask_sz =>
    some (SnapshotRow.fromSorted ts_recv venue market_id outcome_id seq
      (bIdx.map (fun i => bid_px.getD i F64.nan)) sorted_bid_sz
      (aIdx.map (fun i => ask_px.getD i F64.nan)) sorted_ask_sz source_ts)
  | _, _ => none

/-- Model of SnapshotRow::cap_to_top_k (schema.rs lines 105-114). -/
def SnapshotRow.cap_to_top_k (row : SnapshotRow) (top_k : Nat) : SnapshotRow :=
  let row1 :=
    if top_k < row.bid_px.length then
      { row with bid_px := row.bid_px.take top_k, bid_sz := row.bid_sz.take top_k }
    else row
  if top_k < row1.ask_px.length then
    { row1 with ask_px := row1.ask_px.take top_k, ask_sz := row1.ask_sz.take top_k }
  else row1

/-- Model of venue::OrderBookLevel. -/
structure OrderBookLevel where
  price : F64
  size : F64
deriving DecidableEq, Repr

/-- Model of collector/book.rs BookState. -/
structure BookState where
  market_id : String
  outcome_id : String
  last_update_ts : Int
  bids : List OrderBookLevel
  asks : List OrderBookLevel
  sequence : Int
deriving DecidableEq, Repr

/-- Model of BookState::new (book.rs lines 16-25). -/
def BookState.make (market_id outcome_id : String) : BookState :=
  { market_id := market_id, outcome_id := outcome_id, last_update_ts := 0,
    bids := [], asks := [], sequence := 0 }

/-- Model of BookState::update (book.rs lines 27-32): the incoming
sides and metadata replace the stored state unconditionally. -/
def BookState.update (b : BookState) (bids asks : List OrderBookLevel)
    (ts seq : Int) : BookState :=
  { b with bids := bids, asks := asks, last_update_ts := ts, sequence := seq }

/-- Model of BookState::to_snapshot_row (book.rs lines 34-52). -/
def BookState.to_snapshot_row (b : BookState) (venue : String) (ts_recv : Int)
    (source_ts : Option Int) : Option SnapshotRow :=
  SnapshotRow.new? ts_recv venue b.market_id b.outcome_id b.sequence
    (b.bids.map (fun l => l.price)) (b.bids.map (fun l => l.size))
    (b.asks.map (fun l => l.price)) (b.asks.map (fun l => l.size)) source_ts

/-- Model of timebucket.rs TimeBucket. A chrono NaiveDate is in
bijection with its day count from the epoch, so the date field is
modelled by that integer; two TimeBuckets are equal iff all four
fields agree, exactly as the derived PartialEq. -/
structure TimeBucket where
  date : Int
  hour : Nat
  minute : Nat
  bucket_minutes : Nat
deriving DecidableEq, Repr

/-- Model of TimeBucket::from_timestamp (timebucket.rs lines 13-27).
chrono splits the epoch-ms timestamp by floor division into a UTC day,
hour and minute; minute_bucket rounds the minute down to a multiple of
bucket_minutes. Modelled for 0 < bucket_minutes < 2^32 (the u64 to u32
cast is the identity there and the Rust division does not panic) and
for timestamps inside the chrono range (outside it the code silently
substitutes the current time). -/
def TimeBucket.from_timestamp (ts_ms : Int) (bucket_minutes : Nat) : TimeBucket :=
  let days := ts_ms / 86400000
  let msod := (ts_ms % 86400000).toNat
  let hour := msod / 3600000
  let minute := (msod % 3600000) / 60000
  let minute_bucket := (minute / bucket_minutes) * bucket_minutes
  { date := days, hour := hour, minute := minute_bucket, bucket_minutes := bucket_minutes }

/-- Epoch-ms instant at which a bucket begins (start of its minute
window); used to state the window property of the spec. -/
def TimeBucket.startMs (tb : TimeBucket) : Int :=
  tb.date * 86400000 + tb.hour * 3600000 + tb.minute * 60000

/-- Model of metrics.rs SequenceTracker (lines 36-40). -/
structure SequenceTracker where
  last_sequence : Int
  gaps_detected : Nat
  out_of_order : Nat
deriving DecidableEq, Repr

/-- Model of SequenceTracker::new (metrics.rs lines 69-77). -/
def SequenceTracker.new : SequenceTracker :=
  { last_sequence := 0, gaps_detected := 0, out_of_order := 0 }

/-- Model of SequenceTracker::check_sequence (metrics.rs lines 78-98).
Returns the updated tracker together with the (gap_detected, gap_size)
pair the Rust function returns. -/
def SequenceTracker.check_sequence (t : SequenceTracker) (new_sequence : Int) :
    SequenceTracker × Bool × Int :=
  let expected := t.last_sequence + 1
  let gap_size := new_sequence - expected
  if new_sequence < t.last_sequence then
    ({ t with out_of_order := t.out_of_order + 1,
              last_sequence := max new_sequence t.last_sequence }, false, 0)
  else if 0 < gap_size then
    ({ t with gaps_detected := t.gaps_detected + gap_size.toNat,
              last_sequence := new_sequence }, true, gap_size)
  else
    ({ t with last_sequence := new_sequence }, false, 0)

/-- Model of venue::MarketInfo restricted to the fields the scheduler
selection logic reads (title, close_ts, status and tags only feed the
scoring, which is abstracted below into the score order). -/
structure MarketInfo where
  market_id : String
  outcome_ids : List String
  token_ids : List String
deriving DecidableEq, Repr

instance : Inhabited MarketInfo := ⟨{ market_id := "", outcome_ids := [], token_ids := [] }⟩

/-- Model of the closure add_standard_market (scheduler.rs lines
90-97): insert one (market_id, outcome_id) pair per outcome into the
set, stopping as soon as the set has reached the cap. -/
def addOutcomes (mid : String) (cap : Nat) : List String → Finset (String × String) →
    Finset (String × String)
  | [], s => s
  | o :: rest, s => if cap ≤ s.card then s else addOutcomes mid cap rest (insert (mid, o) s)

/-- Model of the HOT loop (scheduler.rs lines 110-112): every hot
market contributes outcomes under the hot_count cap. -/
def addHotMarkets (hot_count : Nat) (ms : List MarketInfo)
    (s : Finset (String × String)) : Finset (String × String) :=
  ms.foldl (fun acc m => addOutcomes m.market_id hot_count m.outcome_ids acc) s

/-- Model of the WARM loop (scheduler.rs lines 113-118): stop when the
combined size reaches max_subs, otherwise add outcomes under the cap
max_subs - hot size. -/
def addWarmMarkets (max_subs : Nat) (hot : Finset (String × String)) :
    List MarketInfo → Finset (String × String) → Finset (String × String)
  | [], w => w
  | m :: rest, w =>
    if max_subs ≤ hot.card + w.card then w
    else addWarmMarkets max_subs hot rest
      (addOutcomes m.market_id (max_subs - hot.card) m.outcome_ids w)

/-- Model of scheduler.rs lines 53-56: for each score entry, look up
the first market with that market_id in the universe (scores are
emitted by score_markets in descending score order). -/
def scoredMarkets (markets : List MarketInfo) (scores : List String) : List MarketInfo :=
  scores.filterMap (fun sid => markets.find? (fun m => m.market_id == sid))

/-- Model of the WARM rotation loop (scheduler.rs lines 61-75): the
loop pushes exactly min(warm_capacity, remaining_len) distinct indexes
in round-robin order starting at cursor mod remaining_len, which the
range map below reproduces; the cursor advances by the number of
markets taken. -/
def warmSelection (cursor warm_capacity : Nat) (remaining : List MarketInfo) :
    List MarketInfo × Nat :=
  if 0 < remaining.length ∧ 0 < warm_capacity then
    let start := cursor % remaining.length
    let warm_selected := (List.range (min warm_capacity remaining.length)).map
      (fun i => remaining.getD ((start + i) % remaining.length) default)
    (warm_selected, (start + warm_selected.length) % remaining.length)
  else ([], cursor)

/-- Model of Scheduler::get_target_subscriptions (scheduler.rs lines
30-144) for a venue on the standard (non token-based) path, with the
file and clock inputs made explicit: markets is the loaded universe
and scores is the market_id order produced by score_markets. Returns
(HOT, WARM, advanced rotation cursor). -/
def get_target_subscriptions (max_subs cursor : Nat) (markets : List MarketInfo)
    (scores : List String) :
    Finset (String × String) × Finset (String × String) × Nat :=
  let hot_count := max 1 (max_subs / 10)
  let scored := scoredMarkets markets scores
  let hot_markets := scored.take hot_count
  let remaining := scored.drop hot_count
  let sel := warmSelection cursor (max_subs - hot_count) remaining
  let new_hot := addHotMarkets hot_count hot_markets ∅
  let new_warm := addWarmMarkets max_subs new_hot sel.1 ∅
  (new_hot, new_warm, sel.2)

/-- Marker trace of the subscription manager: the adaptor calls it
issues, plus the instants at which the churn window is reset. -/
inductive Marker where
  | reset : Nat → Marker
  | sub : Nat → String × String → Marker
  | unsub : Nat → String × String → Marker
deriving DecidableEq, Repr

/-- Model of subscriptions.rs SubscriptionManager state. Times are
seconds (the code only compares whole elapsed seconds against 60). -/
structure SubscriptionManager where
  current : List (String × String)
  pending_add : List (String × String)
  pending_remove : List (String × String)
  churn_count : Nat
  last_churn : Nat
deriving DecidableEq, Repr

/-- Initial manager state at creation time 0 (subscriptions.rs lines
22-37: empty sets, churn_count = 0, last_churn = now). -/
def SubscriptionManager.init : SubscriptionManager :=
  { current := [], pending_add := [], pending_remove := [], churn_count := 0, last_churn := 0 }

/-- Model of SubscriptionManager::update_target (subscriptions.rs
lines 39-62). The HashSet differences are modelled as order-preserving
list filters (HashSet iteration order is arbitrary; the claims below
do not depend on it). -/
def SubscriptionManager.update_target (m : SubscriptionManager)
    (target : List (String × String)) : SubscriptionManager :=
  let to_add := target.filter (fun k => !(m.current.contains k))
  let to_remove := m.current.filter (fun k => !(target.contains k))
  { m with pending_add := m.pending_add ++ to_add,
           pending_remove := m.pending_remove ++ to_remove,
           current := target }

/-- Model of the subscribe loop (subscriptions.rs lines 122-129):
while the queue is non-empty and churn_count is below the limit, pop
the front key, issue one subscribe call, bump the count. -/
def drainSubs (limit now : Nat) : List (String × String) → Nat →
    List (String × String) × Nat × List Marker
  | [], c => ([], c, [])
  | k :: rest, c =>
    if c < limit then
      let r := drainSubs limit now rest (c + 1)
      (r.1, r.2.1, Marker.sub now k :: r.2.2)
    else (k :: rest, c, [])

/-- Model of the unsubscribe loop (subscriptions.rs lines 133-139). -/
def drainUnsubs (limit now : Nat) : List (String × String) → Nat →
    List (String × String) × Nat × List Marker
  | [], c => ([], c, [])
  | k :: rest, c =>
    if c < limit then
      let r := drainUnsubs limit now rest (c + 1)
      (r.1, r.2.1, Marker.unsub now k :: r.2.2)
    else (k :: rest, c, [])

/-- Model of SubscriptionManager::process_pending (subscriptions.rs
lines 64-142) on the per-key venue path: reset the churn window if 60
seconds have elapsed, then drain adds before removes under the churn
limit. Returns the new state and the markers emitted. -/
def SubscriptionManager.process_pending (limit now : Nat) (m : SubscriptionManager) :
    SubscriptionManager × List Marker :=
  let reset := 60 ≤ now - m.last_churn
  let c0 := if reset then 0 else m.churn_count
  let l0 := if reset then now else m.last_churn
  let t0 : List Marker := if reset then [Marker.reset now] else []
  let ra := drainSubs limit now m.pending_add c0
  let rr := drainUnsubs limit now m.pending_remove ra.2.1
  ({ m with pending_add := ra.1, pending_remove := rr.1,
            churn_count := rr.2.1, last_churn := l0 },
   t0 ++ ra.2.2 ++ rr.2.2)

/-- One external stimulus to the subscription manager: a new target
set from the scheduler, or a 1 Hz processing tick at a given time. -/
inductive SubEvent where
  | target : List (String × String) → SubEvent
  | tick : Nat → SubEvent
deriving DecidableEq, Repr

/-- Run of the subscription manager from a given state over a list of
stimuli, collecting the emitted markers. -/
def runSubManagerFrom (limit : Nat) (m : SubscriptionManager) :
    List SubEvent → SubscriptionManager × List Marker
  | [] => (m, [])
  | SubEvent.target t :: rest =>
    runSubManagerFrom limit (m.update_target t) rest
  | SubEvent.tick now :: rest =>
    let r := SubscriptionManager.process_pending limit now m
    let r2 := runSubManagerFrom limit r.1 rest
    (r2.1, r.2 ++ r2.2)

/-- Run of the subscription manager from its initial state. -/
def runSubManager (limit : Nat) (events : List SubEvent) :
    SubscriptionManager × List Marker :=
  runSubManagerFrom limit SubscriptionManager.init events

/-- Whether a marker is a churn-window reset (as opposed to an adaptor
call). -/
def Marker.isReset : Marker → Bool
  | .reset _ => true
  | _ => false

/-- Number of adaptor calls (subscribe or unsubscribe) in a marker
list. -/
def callCount (l : List Marker) : Nat :=
  (l.filter (fun m => !m.isReset)).length

/-- Time at which a marker occurs. -/
def Marker.time : Marker → Nat
  | .reset t => t
  | .sub t _ => t
  | .unsub t _ => t

/-- Number of adaptor calls whose time lies in the real-time sliding
window [t0, t0 + 60). -/
def callsInWindow (t0 : Nat) (l : List Marker) : Nat :=
  (l.filter (fun m => !m.isReset && t0 ≤ m.time && m.time < t0 + 60)).length

/-- Checks that every adaptor call in a marker trace was issued with
the running churn counter strictly below the limit, the counter
starting at c, incremented by calls and zeroed by resets. -/
def boundedAux (limit : Nat) : Nat → List Marker → Bool
  | _, [] => true
  | _, .reset _ :: rest => boundedAux limit 0 rest
  | c, .sub _ _ :: rest => decide (c < limit) && boundedAux limit (c + 1) rest
  | c, .unsub _ _ :: rest => decide (c < limit) && boundedAux limit (c + 1) rest

/-- Value of the running churn counter after a marker trace. -/
def countOut (c : Nat) : List Marker → Nat
  | [] => c
  | .reset _ :: rest => countOut 0 rest
  | .sub _ _ :: rest => countOut (c + 1) rest
  | .unsub _ _ :: rest => countOut (c + 1) rest

/-- Model of ParquetWriter::flush_internal grouping (parquet_writer.rs
lines 94-100): venues in first-appearance order (HashMap iteration
order is arbitrary; the claims below do not depend on it). -/
def venueOrder : List String → List String
  | [] => []
  | v :: rest => v :: (venueOrder rest).filter (fun w => !(w == v))

/-- Rows of the buffer grouped by venue, in first-appearance order. -/
def groupByVenue (buffer : List SnapshotRow) : List (String × List SnapshotRow) :=
  (venueOrder (buffer.map (fun r => r.venue))).map
    (fun v => (v, buffer.filter (fun r => r.venue == v)))

/-- Whether the per-venue write loop (parquet_writer.rs lines 103-105)
succeeds, given which venue writes succeed; the loop stops at the
first failing venue and propagates its error. -/
def writeAllVenues (writeOk : String → Bool) : List (String × List SnapshotRow) → Bool
  | [] => true
  | (v, _) :: rest => writeOk v && writeAllVenues writeOk rest

/-- Model of ParquetWriter::flush_internal (parquet_writer.rs lines
80-108). writeOk says which per-venue columnar writes succeed.
Returns the buffer contents after the call and whether it returned Ok.
The Rust code drains the buffer into rows_by_venue before any write,
so the returned buffer is empty even when a write fails. -/
def flush_internal (writeOk : String → Bool) (buffer : List SnapshotRow) :
    List SnapshotRow × Bool :=
  if buffer.isEmpty then (buffer, true)
  else ([], writeAllVenues writeOk (groupByVenue buffer))

/-- Model of the snapshotter emission path (snapshotter.rs lines
194-204): the row written for a due key is exactly
book.to_snapshot_row, with no further processing before
writer.write(row). -/
def snapshotterRow (book : BookState) (venue_name : String) (ts_recv : Int) :
    Option SnapshotRow :=
  book.to_snapshot_row venue_name ts_recv none

/-- Concrete snapshot row used to exercise the writer model. -/
def sampleRow : SnapshotRow :=
  { ts_recv := 0, venue := "mock", market_id := "m", outcome_id := "o", seq := 1,
    best_bid_px := F64.num 5, best_bid_sz := F64.num 1,
    best_ask_px := F64.num 6, best_ask_sz := F64.num 1,
    mid := F64.nan, spread := F64.nan,
    bid_px := [F64.num 5], bid_sz := [F64.num 1],
    ask_px := [F64.num 6], ask_sz := [F64.num 1],
    status := "ok", err := "", source_ts := none }

/-- Book holding two bid levels and one ask level. -/
def wideBook : BookState :=
  (BookState.make "m" "yes").update
    [{ price := F64.num 6, size := F64.num 1 }, { price := F64.num 5, size := F64.num 1 }]
    [{ price := F64.num 7, size := F64.num 1 }] 1000 1

/-- Crossed update: best bid 7 is at or above best ask 5. -/
def crossedBook : BookState :=
  (BookState.make "m" "yes").update
    [{ price := F64.num 7, size := F64.num 1 }]
    [{ price := F64.num 5, size := F64.num 1 }] 1000 1

/-- Universe of 30 single-outcome markets named by the numerals 0-29. -/
def mkts30 : List MarketInfo :=
  (List.range 30).map (fun i => { market_id := toString i, outcome_ids := ["o"], token_ids := [] })

/-- Stable score order for mkts30: universe order itself. -/
def scores30 : List String := (List.range 30).map toString

/-- First rotation with max_subs = 10 and cursor 0. -/
def rot1 : Finset (String × String) × Finset (String × String) × Nat :=
  get_target_subscriptions 10 0 mkts30 scores30

/-- Second rotation, cursor threaded from the first. -/
def rot2 : Finset (String × String) × Finset (String × String) × Nat :=
  get_target_subscriptions 10 rot1.2.2 mkts30 scores30

/-- Third rotation. -/
def rot3 : Finset (String × String) × Finset (String × String) × Nat :=
  get_target_subscriptions 10 rot2.2.2 mkts30 scores30

/-- Fourth rotation. -/
def rot4 : Finset (String × String) × Finset (String × String) × Nat :=
  get_target_subscriptions 10 rot3.2.2 mkts30 scores30

/-- The feed keys of every market of mkts30 other than the single HOT
market 0. -/
def nonHot30 : Finset (String × String) :=
  ((mkts30.map (fun m => (m.market_id, "o"))).drop 1).toFinset

/-- Single-market universe used for the degenerate scheduler input. -/
def tinyUniverse : List MarketInfo :=
  [{ market_id := "m1", outcome_ids := ["yes"], token_ids := [] }]

/-- Stimulus trace for the subscription manager: one key subscribed at
second 59 of the first churn window, a second key right after the
window resets at second 61. -/
def churnEvents : List SubEvent :=
  [SubEvent.target [("A", "")], SubEvent.tick 59,
   SubEvent.target [("A", ""), ("B", "")], SubEvent.tick 61]

example :
    (SnapshotRow.new? 1000 "polymarket" "market1" "outcome1" 1
      [F64.num 50, F64.num 60, F64.num 40]
      [F64.num 100, F64.num 200, F64.num 50]
      [F64.num 70, F64.num 80, F64.num 65]
      [F64.num 150, F64.num 100, F64.num 200] none).map
        (fun r => (r.bid_px, r.ask_px, r.bid_sz, r.status)) =
    some ([F64.num 60, F64.num 50, F64.num 40],
          [F64.num 65, F64.num 70, F64.num 80],
          [F64.num 200, F64.num 100, F64.num 50], "ok") := by
  decide

theorem length_insertIdx (le : Nat → Nat → Bool) (i : Nat) (l : List Nat) :
    (insertIdx le i l).length = l.length + 1 := by
  induction l with
  | nil => rfl
  | cons j rest ih =>
    simp only [insertIdx]
    split
    · simp
    · simp [ih]

theorem mem_insertIdx (le : Nat → Nat → Bool) (i a : Nat) (l : List Nat) :
    a ∈ insertIdx le i l ↔ a = i ∨ a ∈ l := by
  induction l with
  | nil => simp [insertIdx]
  | cons j rest ih =>
    simp only [insertIdx]
    split
    · simp [List.mem_cons]
    · simp only [List.mem_cons, ih]
      tauto

theorem length_isort (le : Nat → Nat → Bool) (l : List Nat) :
    (isort le l).length = l.length := by
  induction l with
  | nil => rfl
  | cons i rest ih => simp [isort, length_insertIdx, ih]

theorem mem_isort (le : Nat → Nat → Bool) (a : Nat) (l : List Nat) :
    a ∈ isort le l ↔ a ∈ l := by
  induction l with
  | nil => simp [isort]
  | cons i rest ih => simp [isort, mem_insertIdx, ih]

theorem length_sortIndices (cmp : Nat → Nat → Ordering) (n : Nat) :
    (sortIndices cmp n).length = n := by
  simp [sortIndices, length_isort]

theorem mem_sortIndices (cmp : Nat → Nat → Ordering) (n i : Nat) :
    i ∈ sortIndices cmp n ↔ i < n := by
  simp [sortIndices, mem_isort]

theorem optIndex_eq_none_iff (sz : List F64) (idx : List Nat) :
    optIndex sz idx = none ↔ ∃ i ∈ idx, sz.length ≤ i := by
  induction idx with
  | nil => simp [optIndex]
  | cons i rest ih =>
    simp only [optIndex]
    cases hg : sz.get? i with
    | none =>
      have hlen : sz.length ≤ i := List.get?_eq_none.mp hg
      cases ho : optIndex sz rest
      · exact ⟨fun _ => ⟨i, by simp, hlen⟩, fun _ => rfl⟩
      · exact ⟨fun _ => ⟨i, by simp, hlen⟩, fun _ => rfl⟩
    | some v =>
      have hlt : i < sz.length := by
        by_contra hc
        push_neg at hc
        rw [List.get?_eq_none.mpr hc] at hg
        cases hg
      cases ho : optIndex sz rest with
      | none =>
        refine ⟨fun _ => ?_, fun _ => rfl⟩
        obtain ⟨j, hj, hle⟩ := ih.mp ho
        exact ⟨j, List.mem_cons_of_mem _ hj, hle⟩
      | some vs =>
        refine ⟨fun h => Option.noConfusion h, fun h => ?_⟩
        obtain ⟨j, hj, hle⟩ := h
        rcases List.mem_cons.mp hj with rfl | hj2
        · omega
        · rw [ih.mpr ⟨j, hj2, hle⟩] at ho
          cases ho

theorem optIndex_some_length (sz : List F64) (idx : List Nat) (vs : List F64)
    (h : optIndex sz idx = some vs) : vs.length = idx.length := by
  induction idx generalizing vs with
  | nil =>
    simp only [optIndex] at h
    injection h with h
    subst h
    rfl
  | cons i rest ih =>
    simp only [optIndex] at h
    split at h
    · injection h with h
      subst h
      simp only [List.length_cons]
      rw [ih _ (by assumption)]
    · cases h

theorem optIndex_isSome (sz : List F64) (idx : List Nat)
    (h : ∀ i ∈ idx, i < sz.length) : ∃ vs, optIndex sz idx = some vs := by
  cases ho : optIndex sz idx with
  | some vs => exact ⟨vs, rfl⟩
  | none =>
    obtain ⟨i, hi, hle⟩ := (optIndex_eq_none_iff sz idx).mp ho
    exact absurd (h i hi) (by omega)

theorem F64.isNan_eq_false_iff (x : F64) : x.isNan = false ↔ ∃ q, x = F64.num q := by
  cases x <;> simp [F64.isNan]

theorem headD_mem_of_ne_nil {α : Type} (l : List α) (d : α) (h : l ≠ []) :
    l.headD d ∈ l := by
  cases l with
  | nil => exact absurd rfl h
  | cons a rest => simp [List.headD]

theorem sortedPx_length (px : List F64) (cmp : Nat → Nat → Ordering) :
    ((sortIndices cmp px.length).map (fun i => px.getD i F64.nan)).length = px.length := by
  simp [length_sortIndices]

theorem sortedPx_mem (px : List F64) (cmp : Nat → Nat → Ordering) (x : F64)
    (hx : x ∈ (sortIndices cmp px.length).map (fun i => px.getD i F64.nan)) : x ∈ px := by
  obtain ⟨i, hi, rfl⟩ := List.mem_map.mp hx
  have hilt : i < px.length := (mem_sortIndices cmp px.length i).mp hi
  rw [List.getD_eq_getElem?_getD, List.getElem?_eq_getElem hilt]
  simp [List.getElem_mem hilt]

theorem sortedPx_head_not_nan (px : List F64) (cmp : Nat → Nat → Ordering)
    (hne : px ≠ []) (hn : ∀ x ∈ px, x.isNan = false) :
    (((sortIndices cmp px.length).map (fun i => px.getD i F64.nan)).headD F64.nan).isNan
      = false := by
  have hlne : (sortIndices cmp px.length).map (fun i => px.getD i F64.nan) ≠ [] := by
    intro hnil
    apply hne
    have := sortedPx_length px cmp
    rw [hnil] at this
    exact List.length_eq_zero.mp this.symm
  exact hn _ (sortedPx_mem px cmp _ (headD_mem_of_ne_nil _ _ hlne))

theorem sortedPx_nil (cmp : Nat → Nat → Ordering) :
    ((sortIndices cmp 0).map (fun i => ([] : List F64).getD i F64.nan)) = [] := rfl

theorem mssOf_ok (b a : F64) (h1 : b.isNan = false) (h2 : a.isNan = false) :
    mssOf b a = (F64.half (F64.add b a), F64.sub a b, "ok") := by
  simp [mssOf, h1, h2]

theorem mssOf_one_sided (b a : F64) (h : b.isNan ≠ a.isNan) :
    mssOf b a = (F64.nan, F64.nan, "partial") := by
  cases hb : b.isNan <;> cases ha : a.isNan <;> simp_all [mssOf]

theorem mssOf_empty (b a : F64) (h1 : b.isNan = true) (h2 : a.isNan = true) :
    mssOf b a = (F64.nan, F64.nan, "empty") := by
  simp [mssOf, h1, h2]

theorem fromSorted_lists (ts : Int) (v mk o : String) (q : Int)
    (sbpx sbsz sapx sasz : List F64) (st : Option Int)
    (hb : sbsz.length = sbpx.length) (ha : sasz.length = sapx.length) :
    (SnapshotRow.fromSorted ts v mk o q sbpx sbsz sapx sasz st).bid_px = sbpx ∧
    (SnapshotRow.fromSorted ts v mk o q sbpx sbsz sapx sasz st).bid_sz = sbsz ∧
    (SnapshotRow.fromSorted ts v mk o q sbpx sbsz sapx sasz st).ask_px = sapx ∧
    (SnapshotRow.fromSorted ts v mk o q sbpx sbsz sapx sasz st).ask_sz = sasz ∧
    (SnapshotRow.fromSorted ts v mk o q sbpx sbsz sapx sasz st).best_bid_px
      = sbpx.headD F64.nan ∧
    (SnapshotRow.fromSorted ts v mk o q sbpx sbsz sapx sasz st).best_ask_px
      = sapx.headD F64.nan ∧
    (SnapshotRow.fromSorted ts v mk o q sbpx sbsz sapx sasz st).mid
      = (mssOf (sbpx.headD F64.nan) (sapx.headD F64.nan)).1 ∧
    (SnapshotRow.fromSorted ts v mk o q sbpx sbsz sapx sasz st).spread
      = (mssOf (sbpx.headD F64.nan) (sapx.headD F64.nan)).2.1 ∧
    (SnapshotRow.fromSorted ts v mk o q sbpx sbsz sapx sasz st).status
      = (mssOf (sbpx.headD F64.nan) (sapx.headD F64.nan)).2.2 := by
  have h1 : sbpx.take (min sbpx.length sbsz.length) = sbpx := by
    rw [hb, min_self, List.take_length]
  have h2 : sbsz.take (min sbpx.length sbsz.length) = sbsz := by
    rw [hb, min_self, ← hb, List.take_length]
  have h3 : sapx.take (min sapx.length sasz.length) = sapx := by
    rw [ha, min_self, List.take_length]
  have h4 : sasz.take (min sapx.length sasz.length) = sasz := by
    rw [ha, min_self, ← ha, List.take_length]
  simp only [SnapshotRow.fromSorted, h1, h2, h3, h4]
  simp

theorem half_add_not_nan (qb qa : ℚ) :
    (F64.half (F64.add (F64.num qb) (F64.num qa))).isNan = false := by
  simp [F64.add, F64.half, F64.isNan]

theorem sub_not_nan (qb qa : ℚ) :
    (F64.sub (F64.num qa) (F64.num qb)).isNan = false := by
  simp [F64.sub, F64.isNan]

theorem new?_eq_some (ts : Int) (v mk o : String) (q : Int)
    (bpx bsz apx asz : List F64) (st : Option Int)
    (hb : bpx.length ≤ bsz.length) (ha : apx.length ≤ asz.length) :
    ∃ sbsz sasz, sbsz.length = bpx.length ∧ sasz.length = apx.length ∧
      SnapshotRow.new? ts v mk o q bpx bsz apx asz st =
        some (SnapshotRow.fromSorted ts v mk o q
          ((bidIndices bpx).map (fun i => bpx.getD i F64.nan)) sbsz
          ((askIndices apx).map (fun i => apx.getD i F64.nan)) sasz st) := by
  obtain ⟨sbsz, h1⟩ := optIndex_isSome bsz (bidIndices bpx)
    (fun i hi => lt_of_lt_of_le ((mem_sortIndices _ bpx.length i).mp hi) hb)
  obtain ⟨sasz, h2⟩ := optIndex_isSome asz (askIndices apx)
    (fun i hi => lt_of_lt_of_le ((mem_sortIndices _ apx.length i).mp hi) ha)
  refine ⟨sbsz, sasz, ?_, ?_, ?_⟩
  · rw [optIndex_some_length _ _ _ h1]
    exact length_sortIndices _ _
  · rw [optIndex_some_length _ _ _ h2]
    exact length_sortIndices _ _
  · simp only [SnapshotRow.new?]
    rw [h1, h2]

theorem new?_eq_none_iff (ts : Int) (v mk o : String) (q : Int)
    (bpx bsz apx asz : List F64) (st : Option Int) :
    SnapshotRow.new? ts v mk o q bpx bsz apx asz st = none ↔
      bsz.length < bpx.length ∨ asz.length < apx.length := by
  constructor
  · intro h
    by_contra hc
    push_neg at hc
    obtain ⟨sbsz, sasz, _, _, heq⟩ :=
      new?_eq_some ts v mk o q bpx bsz apx asz st (by omega) (by omega)
    rw [heq] at h
    cases h
  · intro h
    rcases h with h | h
    · have hnone : optIndex bsz (bidIndices bpx) = none :=
        (optIndex_eq_none_iff bsz (bidIndices bpx)).mpr
          ⟨bsz.length, (mem_sortIndices _ bpx.length bsz.length).mpr h, le_refl _⟩
      simp only [SnapshotRow.new?]
      rw [hnone]
    · have hnone : optIndex asz (askIndices apx) = none :=
        (optIndex_eq_none_iff asz (askIndices apx)).mpr
          ⟨asz.length, (mem_sortIndices _ apx.length asz.length).mpr h, le_refl _⟩
      simp only [SnapshotRow.new?]
      rw [hnone]
      all_goals cases optIndex bsz (bidIndices bpx) <;> rfl

/-- C1: the claim says a failed flush leaves every row buffered at
flush begin in the buffer for retry. The code instead drains the
buffer into rows_by_venue before attempting any write
(parquet_writer.rs line 95), so when the per-venue write fails the
flush returns an error with the buffer already empty: the buffered row
is dropped. This theorem evaluates the model at the failing input
(one buffered row, every venue write failing). -/
theorem C1_flush_failure_drops_buffered_row :
    (flush_internal (fun _ => false) [sampleRow]).2 = false ∧
    (flush_internal (fun _ => false) [sampleRow]).1 = [] := by
  decide

/-- C3: the claim says every SnapshotRecord forwarded by the
snapshotter to the writer has at most top_k entries per side. The
snapshotter path (snapshotter.rs lines 194-204) forwards
book.to_snapshot_row(...) without ever invoking
SnapshotRow::cap_to_top_k, so with storage.top_k = 1 a book holding
two bid levels produces a forwarded row with two bid entries; applying
the (dead) cap_to_top_k would have trimmed it to one. -/
theorem C3_snapshotter_row_exceeds_top_k :
    (snapshotterRow wideBook "mock" 2000).map (fun r => r.bid_px.length) = some 2 ∧
    ¬(2 ≤ 1) ∧
    (snapshotterRow wideBook "mock" 2000).map
      (fun r => (r.cap_to_top_k 1).bid_px.length) = some 1 := by
  decide

/-- C4 counterexample: a crossed update (best bid 7 at or above best
ask 5, both sides non-empty) is stored as given, but the snapshot
derived from the stored state has status ok, not partial as the claim
states. -/
theorem C4_counterexample :
    crossedBook.bids = [{ price := F64.num 7, size := F64.num 1 }] ∧
    crossedBook.asks = [{ price := F64.num 5, size := F64.num 1 }] ∧
    (crossedBook.to_snapshot_row "mock" 2000 none).map (fun r => r.status) = some "ok" ∧
    "ok" ≠ "partial" := by
  decide

/-- C7 counterexample: receiving sequence 0 on a fresh tracker has
s = 0 equal to last = 0, which the claim files under s at most last
and hence an out-of-order increment; the code only enters the
out-of-order branch for s strictly below last, so the count stays 0
and the step is treated as normal. -/
theorem C7_counterexample :
    SequenceTracker.new.last_sequence = 0 ∧
    (SequenceTracker.new.check_sequence 0).1.out_of_order = 0 ∧
    (SequenceTracker.new.check_sequence 0).1.last_sequence = 0 := by
  decide

/-- C7 amended: the tracker counts an out-of-order step only for
s strictly below last (then last becomes max(s, last), which is
last); s equal to last or last + 1 is treated as normal with last set
to s; s above last + 1 accumulates a gap of s - last - 1 and sets last
to s. -/
theorem C7_check_sequence_cases (t : SequenceTracker) (s : Int) :
    (s < t.last_sequence →
      (t.check_sequence s).1 =
        { t with out_of_order := t.out_of_order + 1,
                 last_sequence := max s t.last_sequence }) ∧
    ((s = t.last_sequence ∨ s = t.last_sequence + 1) →
      (t.check_sequence s).1 = { t with last_sequence := s }) ∧
    (t.last_sequence + 1 < s →
      (t.check_sequence s).1 =
        { t with gaps_detected := t.gaps_detected + (s - t.last_sequence - 1).toNat,
                 last_sequence := s }) := by
  unfold SequenceTracker.check_sequence
  refine ⟨fun h => ?_, fun h => ?_, fun h => ?_⟩
  · simp only [if_pos h]
  · rcases h with h | h
    · rw [if_neg (by omega), if_neg (by omega)]
    · rw [if_neg (by omega), if_neg (by omega)]
  · rw [if_neg (by omega), if_pos (by omega)]
    have : s - (t.last_sequence + 1) = s - t.last_sequence - 1 := by omega
    rw [this]

/-- C7 witness: the three cases of C7_check_sequence_cases discharged
at s = 3, 5 and 9 against a tracker with last sequence 5. -/
theorem C7_witness :
    (SequenceTracker.check_sequence
        { last_sequence := 5, gaps_detected := 0, out_of_order := 0 } 3).1 =
      { last_sequence := max 3 5, gaps_detected := 0, out_of_order := 0 + 1 } ∧
    (SequenceTracker.check_sequence
        { last_sequence := 5, gaps_detected := 0, out_of_order := 0 } 5).1 =
      { last_sequence := 5, gaps_detected := 0, out_of_order := 0 } ∧
    (SequenceTracker.check_sequence
        { last_sequence := 5, gaps_detected := 0, out_of_order := 0 } 9).1 =
      { last_sequence := 9, gaps_detected := 0 + ((9 : Int) - 5 - 1).toNat,
        out_of_order := 0 } :=
  ⟨(C7_check_sequence_cases { last_sequence := 5, gaps_detected := 0, out_of_order := 0 } 3).1
      (by decide),
   (C7_check_sequence_cases { last_sequence := 5, gaps_detected := 0, out_of_order := 0 } 5).2.1
      (Or.inl rfl),
   (C7_check_sequence_cases { last_sequence := 5, gaps_detected := 0, out_of_order := 0 } 9).2.2
      (by decide)⟩

/-- C8 counterexample: with a 30-market universe, max_subs = 10 and
stable scores, the code derives hot_count = max(1, 10 / 10) = 1 (the
configured hot_count is never read), so HOT holds one market, not the
two assumed by the claim, and each rotation takes 9 WARM markets out
of 29 non-HOT ones; after three rotations market 28 (a non-HOT
universe market) has never been in a WARM set, so the union does not
cover the non-HOT markets. -/
theorem C8_counterexample :
    rot1.1.card = 1 ∧
    (∃ m ∈ mkts30, m.market_id = "28" ∧ "o" ∈ m.outcome_ids) ∧
    ("28", "o") ∉ rot1.1 ∧
    ("28", "o") ∉ rot1.2.1 ∪ rot2.2.1 ∪ rot3.2.1 := by
  decide

/-- C8 amended: with 30 markets, max_subs = 10 and stable scores, the
code computes hot_count = max(1, max_subs / 10) = 1 and HOT = the top
market; WARM selection starts at cursor mod 29 and the cursor
advances by the 9 markets taken each rotation (9, 18, 27, then 7),
and the union of the WARM sets over four consecutive rotations covers
all 29 non-HOT markets. -/
theorem C8_rotation_coverage_four_cycles :
    rot1.1 = {("0", "o")} ∧
    rot1.2.2 = 9 ∧ rot2.2.2 = 18 ∧ rot3.2.2 = 27 ∧ rot4.2.2 = 7 ∧
    rot1.2.1 ∪ rot2.2.1 ∪ rot3.2.1 ∪ rot4.2.1 = nonHot30 := by
  decide

/-- C6 counterexample: with churn limit 1, a run of the manager that
subscribes key A at second 59 (first churn window) and key B at second
61 (immediately after the window reset) issues two adaptor calls
inside the sliding real-time window [59, 119), exceeding the limit;
the cap only holds for the manager's own reset windows. -/
theorem C6_counterexample :
    callsInWindow 59 (runSubManager 1 churnEvents).2 = 2 ∧ ¬(2 ≤ 1) := by
  decide

/-- C5 counterexample: with max_subs = 0 the code still computes
hot_count = max(1, 0) = 1 and subscribes one feed key of the top
market, so the HOT and WARM sizes sum to 1, exceeding max_subs. -/
theorem C5_counterexample :
    (get_target_subscriptions 0 0 tinyUniverse ["m1"]).1.card +
      (get_target_subscriptions 0 0 tinyUniverse ["m1"]).2.1.card = 1 ∧
    ¬(1 ≤ 0) := by
  decide

/-- C2 counterexample: with a NaN bid price both sides are non-empty
yet the constructed row has status partial, because the code tests
best-price NaN-ness, not emptiness. -/
theorem C2_counterexample :
    ([F64.nan] ≠ ([] : List F64)) ∧ ([F64.num 5] ≠ ([] : List F64)) ∧
    (SnapshotRow.new? 0 "v" "m" "o" 1 [F64.nan] [F64.num 1]
        [F64.num 5] [F64.num 1] none).map (fun r => r.status) = some "partial" ∧
    "partial" ≠ "ok" := by
  decide

theorem bid_head_not_nan (px : List F64) (hne : px ≠ []) (hn : ∀ x ∈ px, x.isNan = false) :
    (((bidIndices px).map (fun i => px.getD i F64.nan)).headD F64.nan).isNan = false :=
  sortedPx_head_not_nan px _ hne hn

theorem ask_head_not_nan (px : List F64) (hne : px ≠ []) (hn : ∀ x ∈ px, x.isNan = false) :
    (((askIndices px).map (fun i => px.getD i F64.nan)).headD F64.nan).isNan = false :=
  sortedPx_head_not_nan px _ hne hn

theorem bid_head_nan_of_nil (px : List F64) (h : px = []) :
    (((bidIndices px).map (fun i => px.getD i F64.nan)).headD F64.nan).isNan = true := by
  subst h
  rfl

theorem ask_head_nan_of_nil (px : List F64) (h : px = []) :
    (((askIndices px).map (fun i => px.getD i F64.nan)).headD F64.nan).isNan = true := by
  subst h
  rfl

/-- Full behaviour of the constructor on per-side lists of matching
lengths whose prices are NaN-free: the row exists and its status, mid
and spread are determined by which sides are non-empty. -/
theorem new?_full_spec (ts : Int) (venue mkt oid : String) (sq : Int)
    (bpx bsz apx asz : List F64) (st : Option Int)
    (hbl : bsz.length = bpx.length) (hal : asz.length = apx.length)
    (hbn : ∀ x ∈ bpx, x.isNan = false) (han : ∀ x ∈ apx, x.isNan = false) :
    ∃ row, SnapshotRow.new? ts venue mkt oid sq bpx bsz apx asz st = some row ∧
      (row.status = "ok" ↔ (bpx ≠ [] ∧ apx ≠ [])) ∧
      (bpx ≠ [] → apx ≠ [] →
        row.mid = F64.half (F64.add row.best_bid_px row.best_ask_px) ∧
        row.spread = F64.sub row.best_ask_px row.best_bid_px ∧
        row.mid.isNan = false ∧ row.spread.isNan = false) ∧
      ((bpx ≠ [] ∧ apx = []) ∨ (bpx = [] ∧ apx ≠ []) →
        row.status = "partial" ∧ row.mid = F64.nan ∧ row.spread = F64.nan) ∧
      (bpx = [] → apx = [] →
        row.status = "empty" ∧ row.mid = F64.nan ∧ row.spread = F64.nan) := by
  obtain ⟨sbsz, sasz, hl1, hl2, heq⟩ :=
    new?_eq_some ts venue mkt oid sq bpx bsz apx asz st (le_of_eq hbl.symm) (le_of_eq hal.symm)
  have hlb : sbsz.length = ((bidIndices bpx).map (fun i => bpx.getD i F64.nan)).length := by
    rw [hl1]
    simp [bidIndices, length_sortIndices]
  have hla : sasz.length = ((askIndices apx).map (fun i => apx.getD i F64.nan)).length := by
    rw [hl2]
    simp [askIndices, length_sortIndices]
  obtain ⟨hbpx, hbsz, hapx, hasz, hbb, hba, hmid, hspread, hstatus⟩ :=
    fromSorted_lists ts venue mkt oid sq
      ((bidIndices bpx).map (fun i => bpx.getD i F64.nan)) sbsz
      ((askIndices apx).map (fun i => apx.getD i F64.nan)) sasz st hlb hla
  refine ⟨_, heq, ?_, ?_, ?_, ?_⟩
  · rw [hstatus]
    constructor
    · intro hok
      constructor
      · intro hb0
        by_cases ha0 : apx = []
        · rw [mssOf_empty _ _ (bid_head_nan_of_nil bpx hb0) (ask_head_nan_of_nil apx ha0)]
            at hok
          exact absurd hok (by decide)
        · rw [mssOf_one_sided _ _
            (by rw [bid_head_nan_of_nil bpx hb0, ask_head_not_nan apx ha0 han]; decide)]
            at hok
          exact absurd hok (by decide)
      · intro ha0
        by_cases hb0 : bpx = []
        · rw [mssOf_empty _ _ (bid_head_nan_of_nil bpx hb0) (ask_head_nan_of_nil apx ha0)]
            at hok
          exact absurd hok (by decide)
        · rw [mssOf_one_sided _ _
            (by rw [bid_head_not_nan bpx hb0 hbn, ask_head_nan_of_nil apx ha0]; decide)]
            at hok
          exact absurd hok (by decide)
    · rintro ⟨hb0, ha0⟩
      rw [mssOf_ok _ _ (bid_head_not_nan bpx hb0 hbn) (ask_head_not_nan apx ha0 han)]
  · intro hb0 ha0
    have h1 := bid_head_not_nan bpx hb0 hbn
    have h2 := ask_head_not_nan apx ha0 han
    obtain ⟨qb, hqb⟩ := (F64.isNan_eq_false_iff _).mp h1
    obtain ⟨qa, hqa⟩ := (F64.isNan_eq_false_iff _).mp h2
    rw [hmid, hspread, hbb, hba, mssOf_ok _ _ h1 h2]
    refine ⟨rfl, rfl, ?_, ?_⟩
    · rw [hqb, hqa]
      exact half_add_not_nan qb qa
    · rw [hqb, hqa]
      exact sub_not_nan qb qa
  · rintro (⟨hb0, ha0⟩ | ⟨hb0, ha0⟩)
    · have hne : (((bidIndices bpx).map (fun i => bpx.getD i F64.nan)).headD F64.nan).isNan
          ≠ (((askIndices apx).map (fun i => apx.getD i F64.nan)).headD F64.nan).isNan := by
        rw [bid_head_not_nan bpx hb0 hbn, ask_head_nan_of_nil apx ha0]
        decide
      rw [hstatus, hmid, hspread, mssOf_one_sided _ _ hne]
      exact ⟨rfl, rfl, rfl⟩
    · have hne : (((bidIndices bpx).map (fun i => bpx.getD i F64.nan)).headD F64.nan).isNan
          ≠ (((askIndices apx).map (fun i => apx.getD i F64.nan)).headD F64.nan).isNan := by
        rw [bid_head_nan_of_nil bpx hb0, ask_head_not_nan apx ha0 han]
        decide
      rw [hstatus, hmid, hspread, mssOf_one_sided _ _ hne]
      exact ⟨rfl, rfl, rfl⟩
  · intro hb0 ha0
    rw [hstatus, hmid, hspread,
      mssOf_empty _ _ (bid_head_nan_of_nil bpx hb0) (ask_head_nan_of_nil apx ha0)]
    exact ⟨rfl, rfl, rfl⟩

/-- C2 amended: for input lists of matching per-side lengths whose
prices are all non-NaN (every real order book update; the NaN price
counterexample above is what forces the restriction), status is ok
iff both sides are non-empty, and then mid = (best_bid + best_ask)/2
and spread = best_ask - best_bid, both non-NaN; with exactly one
non-empty side the status is partial, with none it is empty, and in
both cases mid and spread are NaN. -/
theorem C2_status_mid_spread (ts : Int) (venue mkt oid : String) (sq : Int)
    (bpx bsz apx asz : List F64) (st : Option Int)
    (hbl : bsz.length = bpx.length) (hal : asz.length = apx.length)
    (hbn : ∀ x ∈ bpx, x.isNan = false) (han : ∀ x ∈ apx, x.isNan = false) :
    ∃ row, SnapshotRow.new? ts venue mkt oid sq bpx bsz apx asz st = some row ∧
      (row.status = "ok" ↔ (bpx ≠ [] ∧ apx ≠ [])) ∧
      (bpx ≠ [] → apx ≠ [] →
        row.mid = F64.half (F64.add row.best_bid_px row.best_ask_px) ∧
        row.spread = F64.sub row.best_ask_px row.best_bid_px ∧
        row.mid.isNan = false ∧ row.spread.isNan = false) ∧
      ((bpx ≠ [] ∧ apx = []) ∨ (bpx = [] ∧ apx ≠ []) →
        row.status = "partial" ∧ row.mid = F64.nan ∧ row.spread = F64.nan) ∧
      (bpx = [] → apx = [] →
        row.status = "empty" ∧ row.mid = F64.nan ∧ row.spread = F64.nan) :=
  new?_full_spec ts venue mkt oid sq bpx bsz apx asz st hbl hal hbn han

/-- C2 witness: the amended theorem discharged on a one-level book on
each side. -/
theorem C2_witness :
    ∃ row, SnapshotRow.new? 0 "v" "m" "o" 1 [F64.num 5] [F64.num 1]
        [F64.num 6] [F64.num 1] none = some row ∧
      row.status = "ok" ∧ row.mid.isNan = false ∧ row.spread.isNan = false := by
  obtain ⟨row, heq, hiff, hms, _, _⟩ :=
    C2_status_mid_spread 0 "v" "m" "o" 1 [F64.num 5] [F64.num 1] [F64.num 6] [F64.num 1]
      none rfl rfl (by decide) (by decide)
  obtain ⟨_, _, hm, hs⟩ := hms (by decide) (by decide)
  exact ⟨row, heq, hiff.mpr ⟨by decide, by decide⟩, hm, hs⟩

/-- C4 amended: a crossed update (both sides non-empty, NaN-free, and
some bid price at or above some ask price) is stored in the book
replica exactly as given, and the snapshot derived from the stored
state has status ok, not partial: the constructor derives status only
from which sides are non-empty and performs no crossing check. -/
theorem C4_crossed_update_status_ok (b : BookState) (bids asks : List OrderBookLevel)
    (ts sq : Int) (venue : String) (ts_recv : Int)
    (hbne : bids ≠ []) (hane : asks ≠ [])
    (hbn : ∀ l ∈ bids, l.price.isNan = false) (han : ∀ l ∈ asks, l.price.isNan = false)
    (_hcross : ∃ lb ∈ bids, ∃ la ∈ asks, ∃ qb qa : ℚ,
      lb.price = F64.num qb ∧ la.price = F64.num qa ∧ qa ≤ qb) :
    (b.update bids asks ts sq).bids = bids ∧
    (b.update bids asks ts sq).asks = asks ∧
    (b.update bids asks ts sq).last_update_ts = ts ∧
    (b.update bids asks ts sq).sequence = sq ∧
    ((b.update bids asks ts sq).to_snapshot_row venue ts_recv none).map
      (fun r => r.status) = some "ok" := by
  refine ⟨rfl, rfl, rfl, rfl, ?_⟩
  obtain ⟨row, heq, hiff, _, _, _⟩ :=
    new?_full_spec ts_recv venue b.market_id b.outcome_id sq
      (bids.map (fun l => l.price)) (bids.map (fun l => l.size))
      (asks.map (fun l => l.price)) (asks.map (fun l => l.size)) none
      (by simp) (by simp)
      (by
        intro x hx
        obtain ⟨l, hl, rfl⟩ := List.mem_map.mp hx
        exact hbn l hl)
      (by
        intro x hx
        obtain ⟨l, hl, rfl⟩ := List.mem_map.mp hx
        exact han l hl)
  show (SnapshotRow.new? ts_recv venue b.market_id b.outcome_id sq
      (bids.map (fun l => l.price)) (bids.map (fun l => l.size))
      (asks.map (fun l => l.price)) (asks.map (fun l => l.size)) none).map
      (fun r => r.status) = some "ok"
  rw [heq]
  have hst : row.status = "ok" := by
    refine hiff.mpr ⟨?_, ?_⟩
    · intro h
      exact hbne (List.map_eq_nil_iff.mp h)
    · intro h
      exact hane (List.map_eq_nil_iff.mp h)
  simp [hst]

/-- C4 witness: the amended theorem discharged on the concrete crossed
book (bid 7, ask 5). -/
theorem C4_witness :
    crossedBook.bids = [{ price := F64.num 7, size := F64.num 1 }] ∧
    crossedBook.asks = [{ price := F64.num 5, size := F64.num 1 }] ∧
    crossedBook.last_update_ts = 1000 ∧
    crossedBook.sequence = 1 ∧
    (crossedBook.to_snapshot_row "mock" 2000 none).map (fun r => r.status) = some "ok" :=
  C4_crossed_update_status_ok (BookState.make "m" "yes")
    [{ price := F64.num 7, size := F64.num 1 }]
    [{ price := F64.num 5, size := F64.num 1 }] 1000 1 "mock" 2000
    (by decide) (by decide) (by decide) (by decide)
    ⟨{ price := F64.num 7, size := F64.num 1 }, by decide,
     { price := F64.num 5, size := F64.num 1 }, by decide,
     7, 5, rfl, rfl, by norm_num⟩

/-- C10: the constructor builds sorted_bid_sz and sorted_ask_sz by
indexing the size lists at every sorted index of the corresponding
price list before the length capping, so it panics (none) exactly when
a size list is shorter than its price list; under the length
precondition it is total and the produced row has per-side lists of
equal length. -/
theorem C10_new_panics_iff (ts : Int) (venue mkt oid : String) (sq : Int)
    (bpx bsz apx asz : List F64) (st : Option Int) :
    (SnapshotRow.new? ts venue mkt oid sq bpx bsz apx asz st = none ↔
      bsz.length < bpx.length ∨ asz.length < apx.length) ∧
    (bpx.length ≤ bsz.length → apx.length ≤ asz.length →
      ∃ row, SnapshotRow.new? ts venue mkt oid sq bpx bsz apx asz st = some row ∧
        row.bid_px.length = row.bid_sz.length ∧
        row.ask_px.length = row.ask_sz.length) := by
  refine ⟨new?_eq_none_iff ts venue mkt oid sq bpx bsz apx asz st, fun hb ha => ?_⟩
  obtain ⟨sbsz, sasz, hl1, hl2, heq⟩ :=
    new?_eq_some ts venue mkt oid sq bpx bsz apx asz st hb ha
  have hlb : sbsz.length = ((bidIndices bpx).map (fun i => bpx.getD i F64.nan)).length := by
    rw [hl1]
    simp [bidIndices, length_sortIndices]
  have hla : sasz.length = ((askIndices apx).map (fun i => apx.getD i F64.nan)).length := by
    rw [hl2]
    simp [askIndices, length_sortIndices]
  obtain ⟨hbpx, hbsz, hapx, hasz, _, _, _, _, _⟩ :=
    fromSorted_lists ts venue mkt oid sq
      ((bidIndices bpx).map (fun i => bpx.getD i F64.nan)) sbsz
      ((askIndices apx).map (fun i => apx.getD i F64.nan)) sasz st hlb hla
  refine ⟨_, heq, ?_, ?_⟩
  · rw [hbpx, hbsz, ← hlb]
  · rw [hapx, hasz, ← hla]

/-- C10 witness: the characterization discharged concretely, once at a
panicking input (bid size list shorter than the bid price list) and
once at a well-formed input. -/
theorem C10_witness :
    SnapshotRow.new? 0 "v" "m" "o" 1 [F64.num 5] [] [] [] none = none ∧
    ∃ row, SnapshotRow.new? 0 "v" "m" "o" 1 [F64.num 5] [F64.num 1] [] [] none
        = some row ∧
      row.bid_px.length = row.bid_sz.length ∧ row.ask_px.length = row.ask_sz.length :=
  ⟨(C10_new_panics_iff 0 "v" "m" "o" 1 [F64.num 5] [] [] [] none).1.mpr
      (Or.inl (by decide)),
   (C10_new_panics_iff 0 "v" "m" "o" 1 [F64.num 5] [F64.num 1] [] [] none).2
      (by decide) (by decide)⟩

/-- C9 counterexample: with bucket_minutes = 7 (at least 1, but not a
divisor of 60) the bucket of 00:58 starts at 00:56 and its window
extends to 01:03, yet 01:01 maps to the bucket (hour 1, minute 0):
two timestamps in the same window with different TimeBucket values. -/
theorem C9_counterexample :
    (1 ≤ 7) ∧
    (TimeBucket.from_timestamp 3480000 7).startMs ≤ 3660000 ∧
    (3660000 : Int) < (TimeBucket.from_timestamp 3480000 7).startMs + 7 * 60000 ∧
    TimeBucket.from_timestamp 3660000 7 ≠ TimeBucket.from_timestamp 3480000 7 := by
  decide

theorem card_addOutcomes (mid : String) (cap : Nat) (outs : List String)
    (s : Finset (String × String)) : (addOutcomes mid cap outs s).card ≤ max cap s.card := by
  induction outs generalizing s with
  | nil => exact le_max_right _ _
  | cons o rest ih =>
    simp only [addOutcomes]
    split
    · exact le_max_right _ _
    · rename_i hlt
      refine le_trans (ih _) (max_le (le_max_left _ _) ?_)
      have hc : (insert (mid, o) s).card ≤ cap :=
        le_trans (Finset.card_insert_le _ _) (by omega)
      exact le_trans hc (le_max_left _ _)

theorem mem_addOutcomes (mid : String) (cap : Nat) (outs : List String)
    (s : Finset (String × String)) (p : String × String)
    (h : p ∈ addOutcomes mid cap outs s) : p ∈ s ∨ (p.1 = mid ∧ p.2 ∈ outs) := by
  induction outs generalizing s with
  | nil => exact Or.inl h
  | cons o rest ih =>
    simp only [addOutcomes] at h
    split at h
    · exact Or.inl h
    · rcases ih _ h with hs | hp
      · rcases Finset.mem_insert.mp hs with heq | hs2
        · rw [heq]
          exact Or.inr ⟨rfl, by simp⟩
        · exact Or.inl hs2
      · exact Or.inr ⟨hp.1, List.mem_cons_of_mem _ hp.2⟩

theorem card_addHotMarkets (cap : Nat) (ms : List MarketInfo)
    (s : Finset (String × String)) : (addHotMarkets cap ms s).card ≤ max cap s.card := by
  induction ms generalizing s with
  | nil => exact le_max_right _ _
  | cons m rest ih =>
    refine le_trans (ih _) (max_le (le_max_left _ _) ?_)
    exact le_trans (card_addOutcomes _ _ _ _) (max_le (le_max_left _ _) (le_max_right _ _))

theorem mem_addHotMarkets (cap : Nat) (ms : List MarketInfo)
    (s : Finset (String × String)) (p : String × String)
    (h : p ∈ addHotMarkets cap ms s) :
    p ∈ s ∨ ∃ m ∈ ms, p.1 = m.market_id ∧ p.2 ∈ m.outcome_ids := by
  induction ms generalizing s with
  | nil => exact Or.inl h
  | cons m rest ih =>
    rcases ih _ h with hs | ⟨m2, hm2, hp⟩
    · rcases mem_addOutcomes _ _ _ _ _ hs with hs2 | hp
      · exact Or.inl hs2
      · exact Or.inr ⟨m, by simp, hp⟩
    · exact Or.inr ⟨m2, List.mem_cons_of_mem _ hm2, hp⟩

theorem card_addWarmMarkets (max_subs : Nat) (hot : Finset (String × String))
    (ms : List MarketInfo) (w : Finset (String × String))
    (hw : hot.card + w.card ≤ max_subs) :
    hot.card + (addWarmMarkets max_subs hot ms w).card ≤ max_subs := by
  induction ms generalizing w with
  | nil => exact hw
  | cons m rest ih =>
    simp only [addWarmMarkets]
    split
    · exact hw
    · rename_i hlt
      refine ih _ ?_
      have h1 := card_addOutcomes m.market_id (max_subs - hot.card) m.outcome_ids w
      omega

theorem mem_addWarmMarkets (max_subs : Nat) (hot : Finset (String × String))
    (ms : List MarketInfo) (w : Finset (String × String)) (p : String × String)
    (h : p ∈ addWarmMarkets max_subs hot ms w) :
    p ∈ w ∨ ∃ m ∈ ms, p.1 = m.market_id ∧ p.2 ∈ m.outcome_ids := by
  induction ms generalizing w with
  | nil => exact Or.inl h
  | cons m rest ih =>
    simp only [addWarmMarkets] at h
    split at h
    · exact Or.inl h
    · rcases ih _ h with hs | ⟨m2, hm2, hp⟩
      · rcases mem_addOutcomes _ _ _ _ _ hs with hs2 | hp
        · exact Or.inl hs2
        · exact Or.inr ⟨m, by simp, hp⟩
      · exact Or.inr ⟨m2, List.mem_cons_of_mem _ hm2, hp⟩

theorem scored_ids (markets : List MarketInfo) (scores : List String) :
    (scoredMarkets markets scores).map (fun m => m.market_id)
      = scores.filter (fun sid => (markets.find? (fun m => m.market_id == sid)).isSome) := by
  induction scores with
  | nil => rfl
  | cons sid rest ih =>
    simp only [scoredMarkets, List.filterMap_cons] at *
    cases hf : markets.find? (fun m => m.market_id == sid) with
    | none => simp [hf, ih, List.filter_cons]
    | some m =>
      have hid : m.market_id = sid := by simpa using List.find?_some hf
      simp [hf, ih, hid, List.filter_cons]

theorem scored_ids_nodup (markets : List MarketInfo) (scores : List String)
    (h : scores.Nodup) :
    ((scoredMarkets markets scores).map (fun m => m.market_id)).Nodup := by
  rw [scored_ids]
  exact (List.filter_sublist _).nodup h

theorem scored_subset (markets : List MarketInfo) (scores : List String)
    (m : MarketInfo) (h : m ∈ scoredMarkets markets scores) : m ∈ markets := by
  obtain ⟨sid, _, hf⟩ := List.mem_filterMap.mp h
  exact List.mem_of_find?_eq_some hf

theorem getD_mem_of_lt {α : Type} (l : List α) (n : Nat) (d : α) (h : n < l.length) :
    l.getD n d ∈ l := by
  rw [List.getD_eq_getElem?_getD, List.getElem?_eq_getElem h]
  simp [List.getElem_mem h]

theorem mem_warmSelection (cursor cap : Nat) (remaining : List MarketInfo)
    (m : MarketInfo) (h : m ∈ (warmSelection cursor cap remaining).1) : m ∈ remaining := by
  simp only [warmSelection] at h
  split at h
  · rename_i hcond
    obtain ⟨i, _, rfl⟩ := List.mem_map.mp h
    exact getD_mem_of_lt _ _ _ (Nat.mod_lt _ hcond.1)
  · cases h

theorem nodup_take_drop_disjoint {α : Type} (l : List α) (n : Nat) (h : l.Nodup) :
    List.Disjoint (l.take n) (l.drop n) := by
  have h2 := h
  rw [← List.take_append_drop n l] at h2
  exact (List.nodup_append.mp h2).2.2

/-- C5 amended: provided max_subs is at least 1 (the max_subs = 0
degenerate configuration is what the counterexample exploits, since
hot_count = max(1, max_subs/10) is still 1 there) and the score list
has no duplicate market ids (score_markets emits one entry per
universe market, so this is the assumption that the loaded universe
has pairwise distinct market_ids), the target sets of the standard
venue path satisfy |HOT| + |WARM| <= max_subs and HOT and WARM are
disjoint, and every element of either set is a (market_id, outcome_id)
pair of a market present in the universe. -/
theorem C5_scheduler_invariants (max_subs cursor : Nat) (markets : List MarketInfo)
    (scores : List String) (hms : 1 ≤ max_subs) (hns : scores.Nodup) :
    (get_target_subscriptions max_subs cursor markets scores).1.card +
      (get_target_subscriptions max_subs cursor markets scores).2.1.card ≤ max_subs ∧
    Disjoint (get_target_subscriptions max_subs cursor markets scores).1
      (get_target_subscriptions max_subs cursor markets scores).2.1 ∧
    ∀ p ∈ (get_target_subscriptions max_subs cursor markets scores).1 ∪
        (get_target_subscriptions max_subs cursor markets scores).2.1,
      ∃ m ∈ markets, m.market_id = p.1 ∧ p.2 ∈ m.outcome_ids := by
  have hhc : max 1 (max_subs / 10) ≤ max_subs := by
    have := Nat.div_le_self max_subs 10
    omega
  have e1 : (get_target_subscriptions max_subs cursor markets scores).1
      = addHotMarkets (max 1 (max_subs / 10))
          ((scoredMarkets markets scores).take (max 1 (max_subs / 10))) ∅ := rfl
  have e2 : (get_target_subscriptions max_subs cursor markets scores).2.1
      = addWarmMarkets max_subs
          (addHotMarkets (max 1 (max_subs / 10))
            ((scoredMarkets markets scores).take (max 1 (max_subs / 10))) ∅)
          (warmSelection cursor (max_subs - max 1 (max_subs / 10))
            ((scoredMarkets markets scores).drop (max 1 (max_subs / 10)))).1 ∅ := rfl
  have hhotcard : (get_target_subscriptions max_subs cursor markets scores).1.card
      ≤ max 1 (max_subs / 10) := by
    rw [e1]
    have := card_addHotMarkets (max 1 (max_subs / 10))
      ((scoredMarkets markets scores).take (max 1 (max_subs / 10))) ∅
    simpa using this
  refine ⟨?_, ?_, ?_⟩
  · rw [e1, e2]
    have hinit : (addHotMarkets (max 1 (max_subs / 10))
        ((scoredMarkets markets scores).take (max 1 (max_subs / 10))) ∅).card + 0
        ≤ max_subs := by
      rw [← e1]
      omega
    have := card_addWarmMarkets max_subs
      (addHotMarkets (max 1 (max_subs / 10))
        ((scoredMarkets markets scores).take (max 1 (max_subs / 10))) ∅)
      (warmSelection cursor (max_subs - max 1 (max_subs / 10))
        ((scoredMarkets markets scores).drop (max 1 (max_subs / 10)))).1 ∅
      (by simpa using hinit)
    omega
  · rw [Finset.disjoint_left]
    intro p hp hq
    rw [e1] at hp
    rw [e2] at hq
    rcases mem_addHotMarkets _ _ _ _ hp with h0 | ⟨m, hm, hid, _⟩
    · exact absurd h0 (Finset.not_mem_empty p)
    rcases mem_addWarmMarkets _ _ _ _ _ hq with h0 | ⟨m2, hm2, hid2, _⟩
    · exact absurd h0 (Finset.not_mem_empty p)
    have hm2r : m2 ∈ (scoredMarkets markets scores).drop (max 1 (max_subs / 10)) :=
      mem_warmSelection _ _ _ _ hm2
    have h1 : m.market_id ∈
        ((scoredMarkets markets scores).map (fun m => m.market_id)).take
          (max 1 (max_subs / 10)) := by
      rw [← List.map_take]
      exact List.mem_map_of_mem _ hm
    have h2 : m2.market_id ∈
        ((scoredMarkets markets scores).map (fun m => m.market_id)).drop
          (max 1 (max_subs / 10)) := by
      rw [← List.map_drop]
      exact List.mem_map_of_mem _ hm2r
    have hdisj := nodup_take_drop_disjoint _ (max 1 (max_subs / 10))
      (scored_ids_nodup markets scores hns)
    have hideq : m.market_id = m2.market_id := by rw [← hid, ← hid2]
    rw [hideq] at h1
    exact hdisj h1 h2
  · intro p hp
    rcases Finset.mem_union.mp hp with hp1 | hp2
    · rw [e1] at hp1
      rcases mem_addHotMarkets _ _ _ _ hp1 with h0 | ⟨m, hm, hid, hout⟩
      · exact absurd h0 (Finset.not_mem_empty p)
      exact ⟨m, scored_subset markets scores m (List.take_subset _ _ hm), hid.symm, hout⟩
    · rw [e2] at hp2
      rcases mem_addWarmMarkets _ _ _ _ _ hp2 with h0 | ⟨m, hm, hid, hout⟩
      · exact absurd h0 (Finset.not_mem_empty p)
      exact ⟨m,
        scored_subset markets scores m
          (List.drop_subset _ _ (mem_warmSelection _ _ _ _ hm)),
        hid.symm, hout⟩

/-- C5 witness: the amended invariants discharged on the concrete
single-market universe with max_subs = 10. -/
theorem C5_witness :
    (get_target_subscriptions 10 0 tinyUniverse ["m1"]).1.card +
      (get_target_subscriptions 10 0 tinyUniverse ["m1"]).2.1.card ≤ 10 ∧
    Disjoint (get_target_subscriptions 10 0 tinyUniverse ["m1"]).1
      (get_target_subscriptions 10 0 tinyUniverse ["m1"]).2.1 ∧
    ∀ p ∈ (get_target_subscriptions 10 0 tinyUniverse ["m1"]).1 ∪
        (get_target_subscriptions 10 0 tinyUniverse ["m1"]).2.1,
      ∃ m ∈ tinyUniverse, m.market_id = p.1 ∧ p.2 ∈ m.outcome_ids :=
  C5_scheduler_invariants 10 0 tinyUniverse ["m1"] (by decide) (by decide)

theorem countOut_append (c : Nat) (X Y : List Marker) :
    countOut c (X ++ Y) = countOut (countOut c X) Y := by
  induction X generalizing c with
  | nil => rfl
  | cons m rest ih => cases m <;> simp [countOut, ih]

theorem boundedAux_append (limit c : Nat) (X Y : List Marker) :
    boundedAux limit c (X ++ Y)
      = (boundedAux limit c X && boundedAux limit (countOut c X) Y) := by
  induction X generalizing c with
  | nil => simp [boundedAux, countOut]
  | cons m rest ih =>
    cases m <;> simp [boundedAux, countOut, ih, Bool.and_assoc]

theorem drainSubs_spec (limit now : Nat) (q : List (String × String)) (c : Nat) :
    boundedAux limit c (drainSubs limit now q c).2.2 = true ∧
    countOut c (drainSubs limit now q c).2.2 = (drainSubs limit now q c).2.1 ∧
    ∀ m ∈ (drainSubs limit now q c).2.2, m.isReset = false := by
  induction q generalizing c with
  | nil => simp [drainSubs, boundedAux, countOut]
  | cons k rest ih =>
    simp only [drainSubs]
    split
    · rename_i hc
      obtain ⟨ih1, ih2, ih3⟩ := ih (c + 1)
      refine ⟨?_, ?_, ?_⟩
      · simp [boundedAux, hc, ih1]
      · simp [countOut, ih2]
      · intro m hm
        rcases List.mem_cons.mp hm with rfl | hm2
        · rfl
        · exact ih3 m hm2
    · simp [boundedAux, countOut]

theorem drainUnsubs_spec (limit now : Nat) (q : List (String × String)) (c : Nat) :
    boundedAux limit c (drainUnsubs limit now q c).2.2 = true ∧
    countOut c (drainUnsubs limit now q c).2.2 = (drainUnsubs limit now q c).2.1 ∧
    ∀ m ∈ (drainUnsubs limit now q c).2.2, m.isReset = false := by
  induction q generalizing c with
  | nil => simp [drainUnsubs, boundedAux, countOut]
  | cons k rest ih =>
    simp only [drainUnsubs]
    split
    · rename_i hc
      obtain ⟨ih1, ih2, ih3⟩ := ih (c + 1)
      refine ⟨?_, ?_, ?_⟩
      · simp [boundedAux, hc, ih1]
      · simp [countOut, ih2]
      · intro m hm
        rcases List.mem_cons.mp hm with rfl | hm2
        · rfl
        · exact ih3 m hm2
    · simp [boundedAux, countOut]

theorem drain_pair_spec (limit now : Nat) (qa qr : List (String × String)) (c : Nat) :
    boundedAux limit c
      ((drainSubs limit now qa c).2.2 ++
        (drainUnsubs limit now qr (drainSubs limit now qa c).2.1).2.2) = true ∧
    countOut c
      ((drainSubs limit now qa c).2.2 ++
        (drainUnsubs limit now qr (drainSubs limit now qa c).2.1).2.2)
      = (drainUnsubs limit now qr (drainSubs limit now qa c).2.1).2.1 := by
  obtain ⟨a1, a2, _⟩ := drainSubs_spec limit now qa c
  obtain ⟨b1, b2, _⟩ := drainUnsubs_spec limit now qr (drainSubs limit now qa c).2.1
  constructor
  · rw [boundedAux_append, a1, a2]
    simpa using b1
  · rw [countOut_append, a2, b2]

theorem process_pending_spec (limit now : Nat) (m : SubscriptionManager) :
    boundedAux limit m.churn_count (m.process_pending limit now).2 = true ∧
    countOut m.churn_count (m.process_pending limit now).2
      = (m.process_pending limit now).1.churn_count := by
  by_cases hr : 60 ≤ now - m.last_churn
  · have e : (m.process_pending limit now).2
        = [Marker.reset now] ++
          ((drainSubs limit now m.pending_add 0).2.2 ++
            (drainUnsubs limit now m.pending_remove
              (drainSubs limit now m.pending_add 0).2.1).2.2) := by
      simp [SubscriptionManager.process_pending, hr]
    have e2 : (m.process_pending limit now).1.churn_count
        = (drainUnsubs limit now m.pending_remove
            (drainSubs limit now m.pending_add 0).2.1).2.1 := by
      simp [SubscriptionManager.process_pending, hr]
    obtain ⟨p1, p2⟩ := drain_pair_spec limit now m.pending_add m.pending_remove 0
    rw [e, e2]
    constructor
    · simpa [boundedAux] using p1
    · simpa [countOut] using p2
  · have e : (m.process_pending limit now).2
        = (drainSubs limit now m.pending_add m.churn_count).2.2 ++
          (drainUnsubs limit now m.pending_remove
            (drainSubs limit now m.pending_add m.churn_count).2.1).2.2 := by
      simp [SubscriptionManager.process_pending, hr]
    have e2 : (m.process_pending limit now).1.churn_count
        = (drainUnsubs limit now m.pending_remove
            (drainSubs limit now m.pending_add m.churn_count).2.1).2.1 := by
      simp [SubscriptionManager.process_pending, hr]
    obtain ⟨p1, p2⟩ :=
      drain_pair_spec limit now m.pending_add m.pending_remove m.churn_count
    rw [e, e2]
    exact ⟨p1, p2⟩

theorem runSubManagerFrom_spec (limit : Nat) (m : SubscriptionManager)
    (events : List SubEvent) :
    boundedAux limit m.churn_count (runSubManagerFrom limit m events).2 = true ∧
    countOut m.churn_count (runSubManagerFrom limit m events).2
      = (runSubManagerFrom limit m events).1.churn_count := by
  induction events generalizing m with
  | nil => simp [runSubManagerFrom, boundedAux, countOut]
  | cons e rest ih =>
    cases e with
    | target t =>
      simp only [runSubManagerFrom]
      exact ih (m.update_target t)
    | tick now =>
      simp only [runSubManagerFrom]
      obtain ⟨p1, p2⟩ := process_pending_spec limit now m
      obtain ⟨r1, r2⟩ := ih (m.process_pending limit now).1
      constructor
      · rw [boundedAux_append, p1, p2]
        simpa using r1
      · rw [countOut_append, p2]
        exact r2

theorem boundedAux_mono_prefix (limit c : Nat) (X Y : List Marker)
    (h : boundedAux limit c (X ++ Y) = true) : boundedAux limit c X = true := by
  rw [boundedAux_append] at h
  exact ((Bool.and_eq_true _ _).mp h).1

theorem callCount_cons_sub (t : Nat) (k : String × String) (T : List Marker) :
    callCount (Marker.sub t k :: T) = callCount T + 1 := by
  simp [callCount, Marker.isReset]

theorem callCount_cons_unsub (t : Nat) (k : String × String) (T : List Marker) :
    callCount (Marker.unsub t k :: T) = callCount T + 1 := by
  simp [callCount, Marker.isReset]

theorem callCount_le_of_bounded (limit c : Nat) (T : List Marker)
    (hb : boundedAux limit c T = true) (hr : ∀ m ∈ T, m.isReset = false) :
    callCount T = 0 ∨ c + callCount T ≤ limit := by
  induction T generalizing c with
  | nil => exact Or.inl rfl
  | cons m rest ih =>
    cases m with
    | reset t =>
      have := hr _ (List.mem_cons_self _ _)
      simp [Marker.isReset] at this
    | sub t k =>
      simp only [boundedAux, Bool.and_eq_true, decide_eq_true_eq] at hb
      rcases ih (c + 1) hb.2 (fun x hx => hr x (List.mem_cons_of_mem _ hx)) with h0 | hle
      · right
        rw [callCount_cons_sub, h0]
        omega
      · right
        rw [callCount_cons_sub]
        omega
    | unsub t k =>
      simp only [boundedAux, Bool.and_eq_true, decide_eq_true_eq] at hb
      rcases ih (c + 1) hb.2 (fun x hx => hr x (List.mem_cons_of_mem _ hx)) with h0 | hle
      · right
        rw [callCount_cons_unsub, h0]
        omega
      · right
        rw [callCount_cons_unsub]
        omega

/-- C6 amended: the churn cap is a fixed-window cap, not a sliding
one: in every reset-free contiguous segment of the marker trace of any
run of the subscription manager - that is, within each of the
manager's own churn windows, which last at least 60 seconds - the
number of adaptor subscribe plus unsubscribe calls is at most
churn_limit_per_minute. (A sliding 60-second real-time window can
straddle two such windows and see up to twice the limit, which the
counterexample exhibits.) -/
theorem C6_churn_window_bound (limit : Nat) (events : List SubEvent)
    (l1 l2 l3 : List Marker)
    (hsplit : (runSubManager limit events).2 = l1 ++ l2 ++ l3)
    (hfree : ∀ m ∈ l2, m.isReset = false) :
    callCount l2 ≤ limit := by
  obtain ⟨hb, _⟩ := runSubManagerFrom_spec limit SubscriptionManager.init events
  have hb2 : boundedAux limit 0 (runSubManager limit events).2 = true := hb
  rw [hsplit, List.append_assoc] at hb2
  have h2 : boundedAux limit (countOut 0 l1) (l2 ++ l3) = true := by
    rw [boundedAux_append] at hb2
    exact ((Bool.and_eq_true _ _).mp hb2).2
  have h3 : boundedAux limit (countOut 0 l1) l2 = true :=
    boundedAux_mono_prefix _ _ _ _ h2
  rcases callCount_le_of_bounded limit _ l2 h3 hfree with h0 | hle
  · omega
  · omega

/-- C6 witness: the reset-free segment bound discharged on the
concrete trace of churnEvents with limit 1: the single call of the
first churn window satisfies the cap. -/
theorem C6_witness :
    callCount [Marker.sub 59 ("A", "")] ≤ 1 :=
  C6_churn_window_bound 1 churnEvents []
    [Marker.sub 59 ("A", "")] [Marker.reset 61, Marker.sub 61 ("B", "")]
    (by decide) (by decide)

theorem from_timestamp_decompose (ts : Int) (b : Nat) :
    ∃ (d : Int) (u : Nat), ts = d * 86400000 + u ∧ u < 86400000 ∧
      TimeBucket.from_timestamp ts b =
        ⟨d, u / 3600000, ((u % 3600000) / 60000 / b) * b, b⟩ := by
  refine ⟨ts / 86400000, (ts % 86400000).toNat, ?_, ?_, rfl⟩
  · omega
  · omega

theorem from_timestamp_of_parts (d : Int) (u : Nat) (b : Nat) (hu : u < 86400000) :
    TimeBucket.from_timestamp (d * 86400000 + u) b =
      ⟨d, u / 3600000, ((u % 3600000) / 60000 / b) * b, b⟩ := by
  have h1 : (d * 86400000 + (u : Int)) / 86400000 = d := by omega
  have h2 : ((d * 86400000 + (u : Int)) % 86400000).toNat = u := by omega
  simp only [TimeBucket.from_timestamp, h1, h2]

theorem bucket_mul_bound (b m : Nat) (_hb : 0 < b) (hdvd : b ∣ 60) (hm : m < 60) :
    m / b * b + b ≤ 60 := by
  have h1 : b ∣ m / b * b := dvd_mul_left b (m / b)
  have h2 : b ∣ 60 - m / b * b := Nat.dvd_sub' hdvd h1
  have h3 : m / b * b ≤ m := Nat.div_mul_le_self m b
  have h4 : 0 < 60 - m / b * b := by omega
  have h5 := Nat.le_of_dvd h4 h2
  omega

theorem div_window_eq (b m w : Nat) (_hb : 0 < b) (hw : w < b) :
    (m / b * b + w) / b = m / b := by
  apply Nat.div_eq_of_lt_le
  · exact Nat.le_add_right _ _
  · rw [Nat.succ_mul]
    omega

/-- C9 amended: the same-window property holds for every
bucket_minutes that divides 60 (1, 2, 3, 4, 5, 6, 10, 12, 15, 20, 30,
60 - the counterexample with bucket_minutes = 7 shows it fails for
non-divisors, whose windows straddle an hour boundary): any two
timestamps within [bucket_start, bucket_start + bucket_minutes*60000)
of the bucket of the first map to equal TimeBucket values. -/
theorem C9_bucket_window (b : Nat) (hbpos : 0 < b) (hdvd : b ∣ 60) (ts1 ts2 : Int)
    (hlo : (TimeBucket.from_timestamp ts1 b).startMs ≤ ts2)
    (hhi : ts2 < (TimeBucket.from_timestamp ts1 b).startMs + (b : Int) * 60000) :
    TimeBucket.from_timestamp ts2 b = TimeBucket.from_timestamp ts1 b := by
  obtain ⟨d, u, hts1, hu, hbk⟩ := from_timestamp_decompose ts1 b
  obtain ⟨hr, hhr⟩ : ∃ hr, u / 3600000 = hr := ⟨_, rfl⟩
  obtain ⟨mb, hmb⟩ : ∃ mb, (u % 3600000) / 60000 / b * b = mb := ⟨_, rfl⟩
  have hstart : (TimeBucket.from_timestamp ts1 b).startMs
      = d * 86400000 + (hr : Int) * 3600000 + (mb : Int) * 60000 := by
    rw [hbk, hhr, hmb]
    rfl
  have hmb_le : mb + b ≤ 60 := by
    rw [← hmb]
    exact bucket_mul_bound b ((u % 3600000) / 60000) hbpos hdvd (by omega)
  have hhr_le : hr ≤ 23 := by omega
  rw [hstart] at hlo hhi
  obtain ⟨δ, hts2, hδ⟩ : ∃ δ : Nat,
      ts2 = d * 86400000 + ((hr * 3600000 + mb * 60000 + δ : Nat) : Int) ∧
        δ < b * 60000 := by
    refine ⟨(ts2 - (d * 86400000 + (hr : Int) * 3600000 + (mb : Int) * 60000)).toNat,
      ?_, ?_⟩
    · push_cast
      omega
    · omega
  have hu2lt : hr * 3600000 + mb * 60000 + δ < 86400000 := by omega
  rw [hts2, from_timestamp_of_parts d _ b hu2lt, hbk, hhr, hmb]
  have e1 : (hr * 3600000 + mb * 60000 + δ) / 3600000 = hr := by omega
  have e2 : ((hr * 3600000 + mb * 60000 + δ) % 3600000) / 60000 = mb + δ / 60000 := by
    omega
  have hw : δ / 60000 < b := by omega
  have e3 : (mb + δ / 60000) / b * b = mb := by
    rw [← hmb]
    exact congrArg (fun x => x * b)
      (div_window_eq b ((u % 3600000) / 60000) (δ / 60000) hbpos hw)
  simp [TimeBucket.mk.injEq, e1, e2, e3]

/-- C9 witness: the amended window property discharged at
bucket_minutes = 5 for 00:58 and 00:59, both inside the bucket that
starts at 00:55. -/
theorem C9_witness :
    TimeBucket.from_timestamp 3540000 5 = TimeBucket.from_timestamp 3480000 5 :=
  C9_bucket_window 5 (by norm_num) (by norm_num) 3480000 3540000
    (by decide) (by decide)
